import Mathlib

/-!
# Verification of the rich-soup block-normalization pipeline

Shallow embedding of the block-classification core of the repository
(`src/processor/core.py`, `src/processor/models.py`, `src/processor/post_filters.py`,
`src/common/models/base.py`, `src/common/utils/statistics.py`, `src/blocks/models.py`).

Python floats are modelled as `Rat`, Python ints as `Int` (as `Nat` where the value is a
list index/length), Python `str` as `String` (the inputs exercised are ASCII, where
Lean's `toLower` and `isWhitespace` agree with Python's `lower` and `isspace`),
Python `list` as `List`, Python `set`/`dict` as `List`-based structures with the same
membership/lookup semantics (a `dict` is a prepend-on-assign association list, looked
up front-first, which matches overwrite-on-assign).  Python's stable `sorted` is
modelled by a stable insertion sort.  Logging is dropped (it does not affect values).
-/

namespace RichSoup

/- The library marks the rational operations irreducible; restore reducibility so
that concrete scenario inputs evaluate inside proofs by plain kernel reduction. -/
attribute [local semireducible] Rat.add Rat.sub Rat.mul Rat.inv Rat.ofScientific

/-! ## Python string primitives -/

/-- Model of the character class accepted by Python's `str.isspace` / `str.split()` /
`str.strip()` for the ASCII fragment (space, tab, newline, carriage return). -/
def isSpaceChar (c : Char) : Bool :=
  c.isWhitespace

/-- `str.strip()` on a character list: drop whitespace from both ends. -/
def stripChars (cs : List Char) : List Char :=
  ((cs.dropWhile isSpaceChar).reverse.dropWhile isSpaceChar).reverse

/-- Model of Python `str.strip()` (no arguments: strips whitespace). -/
def pyStrip (s : String) : String :=
  String.mk (stripChars s.toList)

/-- Model of Python `str.lower()` (ASCII fragment), character by character. -/
def pyLower (s : String) : String :=
  String.mk (s.toList.map Char.toLower)

/-- Whitespace tokenization: model of Python `str.split()` (no arguments), which
splits on runs of whitespace and never returns empty tokens. -/
def wsTokens : List Char → List (List Char)
  | [] => []
  | c :: cs =>
      if isSpaceChar c then wsTokens cs
      else
        match wsTokens cs with
        | [] => [[c]]
        | t :: ts => if isSpaceChar (cs.headD ' ') then [c] :: t :: ts else (c :: t) :: ts

/-- `" ".join(s.split())`: collapse internal whitespace runs to single spaces and
strip the ends, as used throughout `core.py`. -/
def collapseWs (s : String) : String :=
  String.intercalate " " ((wsTokens s.toList).map String.mk)

/-- The normalized form used for duplicate detection:
`" ".join(text.lower().split())` (lower-cased, whitespace-collapsed). -/
def normText (s : String) : String :=
  collapseWs (pyLower s)

/-- Model of Python `text.split("\n\n")` on a character list: leftmost-first,
non-overlapping matches of the two-newline separator. -/
def splitNlNl : List Char → List Char → List (List Char)
  | '\n' :: '\n' :: rest, cur => cur.reverse :: splitNlNl rest []
  | c :: rest, cur => splitNlNl rest (c :: cur)
  | [], cur => [cur.reverse]

/-- Model of Python `text.split("\n\n")`. -/
def pySplitDoubleNl (s : String) : List String :=
  (splitNlNl s.toList []).map String.mk

/-- `leadEq needle hay`: `needle` is an initial segment of `hay`. -/
def leadEq : List Char → List Char → Bool
  | [], _ => true
  | _ :: _, [] => false
  | a :: as, b :: bs => a == b && leadEq as bs

/-- `containsSeq needle hay`: `needle` occurs as a contiguous subsequence of `hay`. -/
def containsSeq (needle : List Char) : List Char → Bool
  | [] => needle.isEmpty
  | c :: rest => leadEq needle (c :: rest) || containsSeq needle rest

/-- Model of Python's `needle in hay` on strings (substring containment). -/
def pyIn (needle hay : String) : Bool :=
  containsSeq needle.toList hay.toList

/-- Model of Python `abs` on a rational (kernel-computable). -/
def ratAbs (a : Rat) : Rat :=
  if a < 0 then -a else a

/-- Model of Python `max(a, b)` on rationals (kernel-computable). -/
def ratMax (a b : Rat) : Rat :=
  if a < b then b else a

/-- Model of Python `min(a, b)` on rationals (kernel-computable). -/
def ratMin (a b : Rat) : Rat :=
  if b < a then b else a

/-- Model of Python `round` on a rational (banker's rounding: half to even),
used for the integer image dimensions. -/
def pyRound (q : Rat) : Int :=
  let f := q.floor
  let r := q - (f : Rat)
  if r < 1 / 2 then f
  else if r > 1 / 2 then f + 1
  else if f % 2 = 0 then f else f + 1

/-! ## Data model (`src/common/models/base.py`, `src/blocks/models.py`) -/

/-- Bounding box `(x0, y0, x1, y1)` in page-pixel coordinates (`BBox` type alias). -/
structure BBox where
  x0 : Rat
  y0 : Rat
  x1 : Rat
  y1 : Rat
deriving DecidableEq

/-- A styled run of text (`common/models/base.py::Span`).  The Python `formats`
field is a `Collection`; it is embedded as a `List` carrying the iteration order. -/
structure Span where
  text : String
  formats : List String := ["none"]
  fontSize : Option Rat := none
  fontWeight : Option Rat := none
  fontFamily : Option String := none
deriving DecidableEq

/-- Raw text block payload (`blocks/models.py::TextBlock`). -/
structure TextRaw where
  text : String
  spans : Option (List Span) := none
  fontSize : Rat
  fontWeight : Rat
  fontFamily : Option String := none
  headingLevel : Int := 0
  isCode : Bool := false
  isBlockquote : Bool := false
  bbox : BBox
deriving DecidableEq

/-- The closed raw-block union (`blocks/models.py`): Text, Image, Table, Link, List. -/
inductive RawBlock
  | text (tb : TextRaw)
  | image (src : String) (alt : Option String) (bbox : BBox)
  | table (rows : List (List String)) (bbox : BBox)
  | link (href : String) (spans : List Span) (bbox : BBox)
  | blist (items : List (List Span)) (ordered : Bool) (level : Int) (bbox : BBox)
deriving DecidableEq

/-- The bounding box attached to any raw block variant (`Block.bbox`). -/
def RawBlock.bboxOf : RawBlock → BBox
  | .text tb => tb.bbox
  | .image _ _ b => b
  | .table _ b => b
  | .link _ _ b => b
  | .blist _ _ _ b => b

/-- `blocks/models.py::BlockArray`: a source url together with its raw blocks. -/
structure RawBlockArray where
  url : String
  blocks : List RawBlock
deriving DecidableEq

/-- `common/models/base.py::bbox_size`: width/height of a bounding box; raises
`ValueError` when either is negative.  The raise is modelled as `Except.error`. -/
def bboxSize (b : BBox) : Except String (Rat × Rat) :=
  let w := b.x1 - b.x0
  let h := b.y1 - b.y0
  if w < 0 || h < 0 then .error "Invalid bbox" else .ok (w, h)

/-- Raw block variant tags (`blocks/models.py::BlockType`). -/
inductive RawBlockType
  | text
  | table
  | image
  | link
  | list
deriving DecidableEq

/-- The plain `blocks/models.py::Block` pydantic model: a variant tag and a bbox. -/
structure BlockBase where
  type : RawBlockType
  bbox : BBox
deriving DecidableEq

/-- Model of pydantic construction of `blocks/models.py::Block`.  The class declares
no validator: pydantic only checks the field types (guaranteed here by the Lean
types), so construction always succeeds — in particular no bounding-box geometry
check runs at construction time. -/
def validateBlockBase (ty : RawBlockType) (bbox : BBox) : Except String BlockBase :=
  .ok { type := ty, bbox := bbox }

/-! ## Statistics (`src/common/utils/statistics.py`) -/

/-- `statistics.py::Statistics`. -/
structure Statistics where
  mean : Rat
  median : Rat
  min : Rat
  max : Rat
  count : Nat
deriving DecidableEq

/-- Ascending stable insertion for rationals (model of Python `sorted` on numbers). -/
def insRat (a : Rat) : List Rat → List Rat
  | [] => [a]
  | c :: l => if a ≤ c then a :: c :: l else c :: insRat a l

/-- Stable ascending sort for rationals. -/
def sortRat : List Rat → List Rat
  | [] => []
  | a :: l => insRat a (sortRat l)

/-- `statistics.py::_median`. -/
def pyMedian (values : List Rat) : Rat :=
  let n := values.length
  if n = 0 then 0
  else
    let sortedVals := sortRat values
    let mid := n / 2
    if n % 2 = 0 then (sortedVals.getD (mid - 1) 0 + sortedVals.getD mid 0) / 2
    else sortedVals.getD mid 0

/-- `statistics.py::_average`. -/
def pyAverage (values : List Rat) : Rat :=
  let n := values.length
  if n = 0 then 0 else values.sum / n

/-- Minimum of a list, as Python `min` on a nonempty list (0 never used: callers guard). -/
def pyMin : List Rat → Rat
  | [] => 0
  | a :: l => l.foldl ratMin a

/-- Maximum of a list, as Python `max` on a nonempty list. -/
def pyMax : List Rat → Rat
  | [] => 0
  | a :: l => l.foldl ratMax a

/-- `statistics.py::statistics`. -/
def statistics (values : List Rat) : Statistics :=
  if values = [] then { mean := 0, median := 0, min := 0, max := 0, count := 0 }
  else
    { mean := pyAverage values
      median := pyMedian values
      min := pyMin values
      max := pyMax values
      count := values.length }

/-- `processor/models.py::PageMetrics`. -/
structure PageMetrics where
  fontSize : Statistics
  fontWeight : Statistics
deriving DecidableEq

/-! ## Configuration (`src/common/utils/config.py`)

`Config` is loaded from `config.toml` and validated (`bold_threshold`,
`header_threshold`, `footer_threshold`, `small_text_threshold` must lie in `[0,1]`;
`header_thresholds` keys are parsed from `"hN"`).  The processor reads it as a global;
it is embedded as an explicit parameter.  Fields not used by the processor core
(`timeout_s` and the acquisition url default) are omitted. -/

structure Config where
  readingOrderYTolerance : Int
  boldThreshold : Rat
  headerThreshold : Rat
  footerThreshold : Rat
  smallTextThreshold : Rat
  skipPatterns : List String
  headerThresholds : List (Int × Rat)
deriving DecidableEq

/-- The `[0,1]` bound enforced by `Config.between_zero_and_one` at load time. -/
def Config.validThresholds (cfg : Config) : Prop :=
  0 ≤ cfg.boldThreshold ∧ cfg.boldThreshold ≤ 1 ∧
  0 ≤ cfg.headerThreshold ∧ cfg.headerThreshold ≤ 1 ∧
  0 ≤ cfg.footerThreshold ∧ cfg.footerThreshold ≤ 1 ∧
  0 ≤ cfg.smallTextThreshold ∧ cfg.smallTextThreshold ≤ 1

/-! ## Reading-order normalizer (`processor/core.py::reading_order`)

Python's `sorted(blocks, key=lambda b: (b.bbox[1], b.bbox[0]))` is a stable sort by
the lexicographic `(top-y, left-x)` key; `sorted(line, key=lambda b: b.bbox[0])` is a
stable sort by left-x.  Both are embedded as stable insertion sorts. -/

/-- Lexicographic `(bbox[1], bbox[0])` key order used by the first sort. -/
def leKey (a b : RawBlock) : Bool :=
  decide (a.bboxOf.y0 < b.bboxOf.y0) ||
    (decide (a.bboxOf.y0 = b.bboxOf.y0) && decide (a.bboxOf.x0 ≤ b.bboxOf.x0))

/-- Left-x key order used by the per-line sort. -/
def leX (a b : RawBlock) : Bool :=
  decide (a.bboxOf.x0 ≤ b.bboxOf.x0)

/-- Stable insertion wrt `leKey` (earlier elements stay before key-ties). -/
def insB (a : RawBlock) : List RawBlock → List RawBlock
  | [] => [a]
  | c :: l => if leKey a c then a :: c :: l else c :: insB a l

/-- Stable sort wrt `leKey`: model of `sorted(..., key=(bbox[1], bbox[0]))`. -/
def sortB : List RawBlock → List RawBlock
  | [] => []
  | a :: l => insB a (sortB l)

/-- Stable insertion wrt `leX`. -/
def insX (a : RawBlock) : List RawBlock → List RawBlock
  | [] => [a]
  | c :: l => if leX a c then a :: c :: l else c :: insX a l

/-- Stable sort wrt `leX`: model of `sorted(current_line, key=bbox[0])`. -/
def sortX : List RawBlock → List RawBlock
  | [] => []
  | a :: l => insX a (sortX l)

/-- The grouping walk of `reading_order`: `lastY` is the previous block's top-y,
`cur` the current line.  On a gap `> tol` the line is flushed sorted left-to-right;
the final line is flushed at the end. -/
def flushWalk (tol : Rat) : List RawBlock → Rat → List RawBlock → List RawBlock
  | [], _, cur => sortX cur
  | b :: rest, lastY, cur =>
      if ratAbs (b.bboxOf.y0 - lastY) ≤ tol then
        flushWalk tol rest b.bboxOf.y0 (cur ++ [b])
      else sortX cur ++ flushWalk tol rest b.bboxOf.y0 [b]

/-- The walk over the key-sorted sequence (the first block opens the first line,
matching `last_y is None`). -/
def walkSorted (tol : Rat) : List RawBlock → List RawBlock
  | [] => []
  | b :: rest => flushWalk tol rest b.bboxOf.y0 [b]

/-- `reading_order` on the underlying list of blocks. -/
def readingOrderList (tol : Rat) (l : List RawBlock) : List RawBlock :=
  walkSorted tol (sortB l)

/-- `processor/core.py::reading_order`. -/
def readingOrder (cfg : Config) (arr : RawBlockArray) : RawBlockArray :=
  { url := arr.url
    blocks := readingOrderList (cfg.readingOrderYTolerance : Rat) arr.blocks }

/-! ## Page metrics (`processor/core.py::compute_page_metrics`) -/

/-- `compute_page_metrics`: collect font sizes/weights of the Text blocks. -/
def computePageMetrics (arr : RawBlockArray) : PageMetrics :=
  let fontSizes := arr.blocks.filterMap fun b =>
    match b with
    | .text tb => some tb.fontSize
    | _ => none
  let fontWeights := arr.blocks.filterMap fun b =>
    match b with
    | .text tb => some tb.fontWeight
    | _ => none
  { fontSize := statistics fontSizes, fontWeight := statistics fontWeights }

/-! ## Paragraph classifier (`processor/core.py`) -/

/-- The paragraph value exactly as `core.py` constructs and consumes it — the
keyword arguments `text`, `bold`, `italic`, `heading`, `is_code`, `bbox` of the
`ParagraphBlock(...)` call sites, and the `pb.text` / `pb.heading` accesses of
`_should_skip_paragraph` / `_process_blocks`.  (`processor/models.py` declares a
spans-based `ParagraphBlock` instead; that discrepancy is modelled separately by
`validatePydParagraph` below.) -/
structure ParagraphBlock where
  text : String
  bold : Bool
  italic : Bool
  heading : Int
  isCode : Bool
  bbox : BBox
deriving DecidableEq

/-- Stable descending insertion by the multiplier (second component), the model of
`sorted(config.header_thresholds.items(), key=lambda x: x[1], reverse=True)`. -/
def insDesc (a : Int × Rat) : List (Int × Rat) → List (Int × Rat)
  | [] => [a]
  | c :: l => if a.2 ≥ c.2 then a :: c :: l else c :: insDesc a l

/-- Stable descending sort by multiplier. -/
def sortDesc : List (Int × Rat) → List (Int × Rat)
  | [] => []
  | a :: l => insDesc a (sortDesc l)

/-- The threshold scan of `_determine_heading_level`: first level whose
`mean * multiplier` the font size meets or exceeds; none met → 0. -/
def headingFromTable (fontSize mean : Rat) : List (Int × Rat) → Int
  | [] => 0
  | (level, mult) :: rest =>
      if fontSize ≥ mean * mult then level else headingFromTable fontSize mean rest

/-- `processor/core.py::_determine_heading_level`. -/
def determineHeadingLevel (cfg : Config) (b : TextRaw) (m : PageMetrics) : Int :=
  if b.headingLevel > 0 then b.headingLevel
  else headingFromTable b.fontSize m.fontSize.mean (sortDesc cfg.headerThresholds)

/-- The per-candidate step of the paragraph loop in `_handle_text_block`
(the body of `for para_text in paragraphs`). -/
def emitPara (cfg : Config) (b : TextRaw) (m : PageMetrics)
    (acc : List ParagraphBlock) (paraText : String) : List ParagraphBlock :=
  let cleaned := collapseWs paraText
  if cleaned = "" then acc
  else if b.fontSize ≤ m.fontSize.mean * cfg.smallTextThreshold then acc
  else
    let heading := determineHeadingLevel cfg b m
    let bold := decide (b.fontWeight ≥ m.fontWeight.mean * (1 + cfg.boldThreshold))
    let cleaned2 := if b.isBlockquote then "> " ++ cleaned else cleaned
    acc ++ [{ text := cleaned2, bold := bold, italic := false, heading := heading,
              isCode := false, bbox := b.bbox }]

/-- `processor/core.py::_handle_text_block` — the values the function computes
(the paragraph record as built at its `ParagraphBlock(...)` call sites). -/
def handleTextBlock (cfg : Config) (b : TextRaw) (m : PageMetrics) :
    List ParagraphBlock :=
  let text := pyStrip b.text
  if text = "" then []
  else if b.isCode then
    [{ text := text, bold := false, italic := false, heading := 0, isCode := true,
       bbox := b.bbox }]
  else
    let paragraphs := ((pySplitDoubleNl text).map pyStrip).filter (· ≠ "")
    if paragraphs = [] then []
    else paragraphs.foldl (emitPara cfg b m) []

/-! ## The pydantic boundary (`processor/models.py::ParagraphBlock`)

`processor/models.py` declares `ParagraphBlock` with a required `spans` field, a
required `heading`, a defaulted `is_code`, the inherited required `bbox`, and a
read-only `text` property; it has no `text`, `bold` or `italic` fields.  Pydantic
construction validates the keyword arguments: missing required fields raise
`ValidationError`, unknown keywords are ignored (the default `extra` behavior). -/

/-- The keyword arguments reaching the `ParagraphBlock(...)` constructor,
restricted to the declared fields (`none` = not passed). -/
structure PydParagraphKwargs where
  spans : Option (List Span)
  heading : Option Int
  isCode : Option Bool
  bbox : Option BBox
deriving DecidableEq

/-- A validated `processor/models.py::ParagraphBlock` instance. -/
structure PydParagraph where
  spans : List Span
  heading : Int
  isCode : Bool
  bbox : BBox
deriving DecidableEq

/-- Pydantic field validation of `processor/models.py::ParagraphBlock`: the error
value lists the missing required fields. -/
def validatePydParagraph (kw : PydParagraphKwargs) :
    Except (List String) PydParagraph :=
  match kw.spans, kw.heading, kw.bbox with
  | some s, some h, some bb => .ok { spans := s, heading := h, isCode := kw.isCode.getD false, bbox := bb }
  | _, _, _ =>
      .error ((if kw.spans.isNone then ["spans"] else []) ++
              (if kw.heading.isNone then ["heading"] else []) ++
              (if kw.bbox.isNone then ["bbox"] else []))

/-- The per-candidate step of the paragraph loop in `_handle_text_block`, with the
pydantic construction of its `ParagraphBlock(...)` call made explicit: the call
passes `text`, `bold`, `italic` (ignored extras) and `heading`, `is_code`,
`bbox` — but never the required `spans`. -/
def emitParaChecked (cfg : Config) (b : TextRaw) (m : PageMetrics)
    (acc : List PydParagraph) (paraText : String) :
    Except (List String) (List PydParagraph) := do
  let cleaned := collapseWs paraText
  if cleaned = "" then pure acc
  else if b.fontSize ≤ m.fontSize.mean * cfg.smallTextThreshold then pure acc
  else do
    let heading := determineHeadingLevel cfg b m
    let p ← validatePydParagraph
      { spans := none, heading := some heading, isCode := some false,
        bbox := some b.bbox }
    pure (acc ++ [p])

/-- `_handle_text_block` with its pydantic constructions made explicit.  A raised
`ValidationError` short-circuits, as in Python. -/
def handleTextBlockChecked (cfg : Config) (b : TextRaw) (m : PageMetrics) :
    Except (List String) (List PydParagraph) :=
  let text := pyStrip b.text
  if text = "" then .ok []
  else if b.isCode then
    (validatePydParagraph
        { spans := none, heading := some 0, isCode := some true, bbox := some b.bbox }).map
      ([·])
  else
    let paragraphs := ((pySplitDoubleNl text).map pyStrip).filter (· ≠ "")
    if paragraphs = [] then .ok []
    else paragraphs.foldlM (emitParaChecked cfg b m) []

/-! ## Processed blocks (`processor/models.py`) and the duplicate tracker -/

/-- The processed-block union as the block processor builds it: paragraphs carry the
record of `core.py`'s call sites; Image/Table/Link/List mirror `processor/models.py`. -/
inductive PBlock
  | para (p : ParagraphBlock)
  | image (src : String) (alt : Option String) (dims : Int × Int) (bbox : BBox)
  | table (rows : List (List String)) (bbox : BBox)
  | link (href : String) (spans : List Span) (bbox : BBox)
  | plist (items : List (List Span)) (ordered : Bool) (level : Int) (bbox : BBox)
deriving DecidableEq

/-- `getattr(block, "heading", 0)` as used by the supersede check. -/
def PBlock.headingAttr : PBlock → Int
  | .para p => p.heading
  | _ => 0

/-- `processor/core.py::_is_text_duplicate`: exact membership, or symmetric
substring containment against the whole seen set. -/
def isTextDuplicateFn (normalized : String) (seenTexts : List String) : Bool :=
  decide (normalized ∈ seenTexts) ||
    seenTexts.any (fun seen => pyIn normalized seen || pyIn seen normalized)

/-- `processor/core.py::_hash_table`. -/
def tableHash (rows : List (List String)) : String :=
  String.intercalate "\n"
    (rows.map fun row => String.intercalate "|" (row.map fun c => collapseWs (pyLower c)))

/-- `processor/core.py::_DuplicateTracker`.  Python sets are lists with membership
semantics; the `text_to_index` dict is a prepend-on-assign association list with
front-first lookup (equivalent to overwrite-on-assign). -/
structure Tracker where
  seenTexts : List String
  textToIndex : List (String × Nat)
  seenImages : List String
  seenTables : List String
deriving DecidableEq

/-- The fresh tracker built at the top of `_process_blocks`. -/
def Tracker.init : Tracker :=
  { seenTexts := [], textToIndex := [], seenImages := [], seenTables := [] }

/-- `_DuplicateTracker.is_duplicate`. -/
def Tracker.isDuplicate (t : Tracker) (normalized : String) : Bool :=
  decide (normalized ∈ t.seenTexts)

/-- `_DuplicateTracker.is_substring_duplicate`. -/
def Tracker.isSubstringDuplicate (t : Tracker) (normalized : String) : Bool :=
  isTextDuplicateFn normalized t.seenTexts

/-- First-match association-list lookup: Python `dict.__getitem__` composed with
the prepend-on-assign representation. -/
def lookupIdx (k : String) : List (String × Nat) → Option Nat
  | [] => none
  | (k2, v) :: rest => if k = k2 then some v else lookupIdx k rest

/-- `_DuplicateTracker.add`. -/
def Tracker.add (t : Tracker) (normalized : String) (index : Nat) : Tracker :=
  { t with seenTexts := normalized :: t.seenTexts
           textToIndex := (normalized, index) :: t.textToIndex }

/-- `_DuplicateTracker.remove_at_index`: decrement every recorded index `> idx`. -/
def Tracker.removeAtIndex (t : Tracker) (idx : Nat) : Tracker :=
  { t with textToIndex :=
      t.textToIndex.map fun kv => if kv.2 > idx then (kv.1, kv.2 - 1) else kv }

/-- `_DuplicateTracker.is_image_duplicate`. -/
def Tracker.isImageDuplicate (t : Tracker) (src : String) : Bool :=
  decide (src ∈ t.seenImages)

/-- `_DuplicateTracker.add_image`. -/
def Tracker.addImage (t : Tracker) (src : String) : Tracker :=
  { t with seenImages := src :: t.seenImages }

/-- `_DuplicateTracker.is_table_duplicate`. -/
def Tracker.isTableDuplicate (t : Tracker) (rows : List (List String)) : Bool :=
  decide (tableHash rows ∈ t.seenTables)

/-- `_DuplicateTracker.add_table`. -/
def Tracker.addTable (t : Tracker) (rows : List (List String)) : Tracker :=
  { t with seenTables := tableHash rows :: t.seenTables }

/-- `processor/core.py::_should_skip_paragraph` (the trailing
`if normalized in tracker.text_to_index: return False` branch falls through to
`return False` either way and is kept verbatim). -/
def shouldSkipParagraph (cfg : Config) (pb : ParagraphBlock) (tracker : Tracker) :
    Bool :=
  if pyStrip pb.text = "" then true
  else if cfg.skipPatterns.any (fun pat => pyIn pat (pyLower pb.text)) then true
  else
    let normalized := normText pb.text
    if tracker.isDuplicate normalized && decide (pb.heading = 0) then true
    else if tracker.isSubstringDuplicate normalized then
      if pb.heading = 0 then true
      else if (lookupIdx normalized tracker.textToIndex).isSome then false
      else false
    else false

/-! ## Block processor (`processor/core.py::_process_blocks`) -/

/-- The in-progress output list and tracker of `_process_blocks`. -/
structure PState where
  blocks : List PBlock
  tracker : Tracker
deriving DecidableEq

/-- The heading-over-paragraph supersede step of the paragraph loop: when a heading
arrives whose normalized text has a recorded index pointing (in range) at a block
with `getattr(-, "heading", 0) == 0`, that block is deleted and the recorded
indices shifted. -/
def supersedeStep (st : PState) (pb : ParagraphBlock) (normalized : String) : PState :=
  match (if pb.heading > 0 then lookupIdx normalized st.tracker.textToIndex
         else none) with
  | some idx =>
      if h : idx < st.blocks.length then
        if (st.blocks.get ⟨idx, h⟩).headingAttr = 0 then
          { blocks := st.blocks.eraseIdx idx
            tracker := st.tracker.removeAtIndex idx }
        else st
      else st
  | none => st

/-- One iteration of the paragraph loop inside the Text branch: skip check,
heading-over-paragraph supersede, then register and append. -/
def processPara (cfg : Config) (st : PState) (pb : ParagraphBlock) : PState :=
  if shouldSkipParagraph cfg pb st.tracker then st
  else
    let st1 := supersedeStep st pb (normText pb.text)
    { blocks := st1.blocks ++ [.para pb]
      tracker := st1.tracker.add (normText pb.text) st1.blocks.length }

/-- One iteration of the main loop of `_process_blocks`: header/footer-band skip,
then dispatch on the block variant.  Link and List blocks fall into the
`case RawBlock()` catch-all of the `match` and are skipped. -/
def processRaw (cfg : Config) (m : PageMetrics) (headerThreshold footerThreshold : Rat)
    (st : PState) (rb : RawBlock) : PState :=
  if rb.bboxOf.y0 < headerThreshold ∨ rb.bboxOf.y0 > footerThreshold then st
  else
    match rb with
    | .text tb =>
        if rb.bboxOf.x1 - rb.bboxOf.x0 < 50 then st
        else (handleTextBlock cfg tb m).foldl (processPara cfg) st
    | .image src _ bbox =>
        if st.tracker.isImageDuplicate src then st
        else
          { blocks := st.blocks ++
              [.image src (some "")
                (pyRound (bbox.x1 - bbox.x0), pyRound (bbox.y1 - bbox.y0)) bbox]
            tracker := st.tracker.addImage src }
    | .table rows bbox =>
        if st.tracker.isTableDuplicate rows then st
        else
          { blocks := st.blocks ++ [.table rows bbox]
            tracker := st.tracker.addTable rows }
    | .link _ _ _ => st
    | .blist _ _ _ _ => st

/-- `processor/core.py::_process_blocks`. -/
def processBlocks (cfg : Config) (raws : RawBlockArray) (m : PageMetrics)
    (headerThreshold footerThreshold : Rat) : List PBlock :=
  (raws.blocks.foldl (processRaw cfg m headerThreshold footerThreshold)
    { blocks := [], tracker := Tracker.init }).blocks

/-- The parsed result (`processor/models.py::ParsedBlocks`, data part). -/
structure ParsedBlocks where
  url : String
  blocks : List PBlock
deriving DecidableEq

/-- Maximum bottom-y over the blocks: `max((b.bbox[3] for b in blocks), default=0)`. -/
def maxYOf : List RawBlock → Rat
  | [] => 0
  | b :: rest => rest.foldl (fun acc c => ratMax acc c.bboxOf.y1) b.bboxOf.y1

/-- `processor/core.py::extract_blocks` on an already-acquired raw block array
(the url/keyword dispatch and the network acquisition path are out of scope). -/
def extractBlocks (cfg : Config) (raw : RawBlockArray) : ParsedBlocks :=
  let raw2 := readingOrder cfg raw
  let metrics := computePageMetrics raw2
  let thresholds : Rat × Rat :=
    match raw2.blocks with
    | [] => (0, 0)
    | _ :: _ =>
        let maxY := maxYOf raw2.blocks
        (maxY * cfg.headerThreshold, maxY * cfg.footerThreshold)
  { url := raw2.url
    blocks := processBlocks cfg raw2 metrics thresholds.1 thresholds.2 }

/-! ## Post-filters (`processor/post_filters.py`)

`ISO_LANG_CODES` and `LANG_NAMES` are built from the external `pycountry` dataset:
they are passed as parameters.  `unicodedata.normalize("NFKD", s).encode("ascii",
"ignore").decode("ascii")` is modelled by `asciiFold` (identity on ASCII input,
drops other characters; accent decomposition of the external library is
approximated).  `urllib.parse.urlparse(url).path` is modelled by `urlparsePath`
for the URL shapes the filter receives. -/

/-- Model of the external ASCII folding (`NFKD` + encode-ascii-ignore): identity on
ASCII characters, non-ASCII characters dropped. -/
def asciiFold (s : String) : String :=
  String.mk (s.toList.filter fun c => c.toNat < 128)

/-- Model of the external `urllib.parse.urlparse(url).path`: for `scheme://host/p`
the part from the first `/` after the authority, query/fragment removed; for a
string without `://`, the string itself up to any query/fragment. -/
def urlparsePath (url : String) : String :=
  let parts := url.splitOn "://"
  let cs : List Char :=
    match parts with
    | [] => url.toList
    | [p] => p.toList
    | _ :: t => (String.intercalate "://" t).toList.dropWhile (· ≠ '/')
  String.mk ((cs.takeWhile (· ≠ '?')).takeWhile (· ≠ '#'))

/-- `strip("/")` on both ends. -/
def stripSlashes (s : String) : String :=
  String.mk (((s.toList.dropWhile (· = '/')).reverse.dropWhile (· = '/')).reverse)

/-- `post_filters.py::is_lang_path_segment` (parameterized by `ISO_LANG_CODES`). -/
def isLangPathSegment (isoLangCodes : List String) (segment : String) : Bool :=
  let segment := pyLower segment
  if pyIn "-" segment then
    decide ((segment.splitOn "-").headD "" ∈ isoLangCodes)
  else decide (segment ∈ isoLangCodes)

/-- The removal predicate of `remove_language_links` for one block: first path
segment is a language code, or some span's folded text is a language name.
(`continue` on an empty first segment keeps the block.) -/
def isLanguageLink (isoLangCodes langNames : List String) : PBlock → Bool
  | .link href spans _ =>
      let href := pyLower href
      let pathSegment := ((stripSlashes (urlparsePath href)).splitOn "/").headD ""
      if pathSegment = "" then false
      else
        let pathSegment := pyLower (asciiFold pathSegment)
        if isLangPathSegment isoLangCodes pathSegment then true
        else
          spans.any fun span =>
            let filtered := pyLower (pyStrip (asciiFold span.text))
            decide ((if filtered ≠ "" then filtered else span.text) ∈ langNames)
  | _ => false

/-- `post_filters.py::remove_language_links` (deletion while iterating in reverse
equals filtering out the matching blocks, order preserved). -/
def removeLanguageLinks (isoLangCodes langNames : List String)
    (blocks : List PBlock) : List PBlock :=
  blocks.filter fun b => !(isLanguageLink isoLangCodes langNames b)

/-- The boilerplate phrase list of `ignore_common_bs`, before its space-stripping
normalization. -/
def commonBsPhrases : List String :=
  ["privacy policy", "terms of service", "terms and conditions", "contact us",
   "about us", "help", "faq", "cookie policy", "sitemap", "sign in", "get support",
   "pricing", "have any feedback or questions?", "guides", "privacy & terms",
   "licenses", "your privacy choices"]

/-- `s.replace(" ", "")`. -/
def removeSpaces (s : String) : String :=
  String.mk (s.toList.filter (· ≠ ' '))

/-- The rendered link text of `ignore_common_bs`:
`" ".join(span.text.strip().lower() ...)` with all spaces then removed. -/
def bsLinkText (spans : List Span) : String :=
  removeSpaces (String.intercalate " " (spans.map fun sp => pyLower (pyStrip sp.text)))

/-- `post_filters.py::ignore_common_bs`. -/
def ignoreCommonBs (blocks : List PBlock) : List PBlock :=
  let bs := commonBsPhrases.map fun s => pyLower (removeSpaces s)
  blocks.filter fun b =>
    match b with
    | .link _ spans _ => !(decide (bsLinkText spans ∈ bs))
    | _ => true

/-- `post_filters.py::duped_links`: keep the first Link per href, walking in order. -/
def dupedLinksGo (seenHrefs : List String) : List PBlock → List PBlock
  | [] => []
  | b :: rest =>
      match b with
      | .link href _ _ =>
          if href ∈ seenHrefs then dupedLinksGo seenHrefs rest
          else b :: dupedLinksGo (href :: seenHrefs) rest
      | _ => b :: dupedLinksGo seenHrefs rest

/-- `post_filters.py::duped_links`. -/
def dupedLinks (blocks : List PBlock) : List PBlock :=
  dupedLinksGo [] blocks

/-- `post_filters.py::filter_blocks`: the ordered filter chain. -/
def filterBlocks (isoLangCodes langNames : List String) (blocks : List PBlock) :
    List PBlock :=
  dupedLinks (ignoreCommonBs (removeLanguageLinks isoLangCodes langNames blocks))

/-! ## Markdown renderer (`processor/models.py::ParsedBlocks`) -/

/-- One formatting pass of `_format_spans`' inner loop: wrap `text` according to one
format tag (`none` passes, unknown tags are logged and leave the text unchanged). -/
def wrapOne (text : String) (fmt : String) : String :=
  if fmt = "bold" then "**" ++ text ++ "**"
  else if fmt = "italic" then "*" ++ text ++ "*"
  else if fmt = "code" then "`" ++ text ++ "`"
  else if fmt = "none" then text
  else text

/-- The fully wrapped text of one span (the `for fmt in span.formats` loop). -/
def renderSpanText (sp : Span) : String :=
  sp.formats.foldl wrapOne sp.text

/-- The closing punctuation class of `_format_spans`. -/
def inClosePunct (c : Char) : Bool :=
  (".,!?;:)]\x7d".toList).contains c

/-- The loop body of `_format_spans`: the state is the accumulated `result` and the
enumerate index `i`; a space is appended when `i > 0 and result and not
result[-1].isspace()` and the wrapped text neither is empty nor starts with
closing punctuation. -/
def fsStep (st : String × Nat) (span : Span) : String × Nat :=
  let text := renderSpanText span
  let res := st.1
  let res2 :=
    if st.2 > 0 ∧ res ≠ "" ∧ ¬ (isSpaceChar res.back) then
      if text ≠ "" ∧ ¬ inClosePunct text.front then res ++ " " else res
    else res
  (res2 ++ text, st.2 + 1)

/-- `processor/models.py::ParsedBlocks._format_spans`. -/
def formatSpans (spans : List Span) : String :=
  if spans = [] then ""
  else (spans.foldl fsStep ("", 0)).1

/-- The processed-block union as `processor/models.py` declares it (the shape the
renderer consumes: paragraphs carry spans, with `text` the span concatenation). -/
inductive MBlock
  | para (spans : List Span) (heading : Int) (isCode : Bool) (bbox : BBox)
  | image (src : String) (alt : Option String) (dims : Int × Int) (bbox : BBox)
  | table (rows : List (List String)) (bbox : BBox)
  | link (href : String) (spans : List Span) (bbox : BBox)
  | mlist (items : List (List Span)) (ordered : Bool) (level : Int) (bbox : BBox)
deriving DecidableEq

/-- `ParagraphBlock.text`: concatenated span text. -/
def spansText (spans : List Span) : String :=
  String.join (spans.map (·.text))

/-- `max(len(row) for row in rows)` over a nonempty list. -/
def pyMaxNat : List Nat → Nat
  | [] => 0
  | a :: l => l.foldl max a

/-- The table lines of the renderer: normalize to the maximum column count, header
row, separator row, data rows (skipping empty tables). -/
def tableLines (rows : List (List String)) : List String :=
  if rows = [] then []
  else
    let maxCols := pyMaxNat (rows.map List.length)
    if maxCols = 0 then []
    else
      let normalizedRows := rows.map fun row => row ++ List.replicate (maxCols - row.length) ""
      match normalizedRows with
      | [] => []
      | header :: dataRows =>
          ("| " ++ String.intercalate " | " header ++ " |\n") ::
          ("| " ++ String.intercalate " | " (List.replicate header.length "---") ++ " |\n") ::
          (dataRows.map fun row => "| " ++ String.intercalate " | " row ++ " |\n") ++ ["\n"]

/-- The list-item lines of the renderer (`enumerate(block.items)`). -/
def listLines (ordered : Bool) (level : Int) (items : List (List Span)) : List String :=
  (items.enum.map fun it =>
    let itemText := formatSpans it.2
    let indent := String.mk (List.flatten (List.replicate level.toNat [' ', ' ']))
    if ordered then indent ++ toString (it.1 + 1) ++ ". " ++ itemText ++ "\n"
    else indent ++ "- " ++ itemText ++ "\n") ++ ["\n"]

/-- The lines emitted for one block by `ParsedBlocks.markdown`. -/
def blockLines : MBlock → List String
  | .para spans heading isCode _ =>
      if isCode then ["```\n" ++ spansText spans ++ "\n```\n\n"]
      else if heading > 0 then
        [String.mk (List.replicate heading.toNat '#') ++ " " ++ spansText spans ++ "\n\n"]
      else [formatSpans spans ++ "\n\n"]
  | .image src alt dims _ =>
      let altText := match alt with
        | none => "Image"
        | some a => if a = "" then "Image" else a
      ["![" ++ altText ++ "](" ++ src ++ ") " ++ toString dims.1 ++ "x" ++
        toString dims.2 ++ "\n\n"]
  | .table rows _ => tableLines rows
  | .link href spans _ => ["[" ++ formatSpans spans ++ "](" ++ href ++ ")\n\n"]
  | .mlist items ordered level _ => listLines ordered level items

/-- `processor/models.py::ParsedBlocks.markdown`: `"".join(lines)`. -/
def markdownBlocks (blocks : List MBlock) : String :=
  String.join (blocks.map blockLines).flatten

/-! ## The block processor with the pydantic boundary explicit

`_process_blocks` iterates `for pb in _handle_text_block(rb, metrics)`; when that
call raises `ValidationError` the exception propagates out of the loop and out of
`_process_blocks`.  The variant below makes this explicit: paragraphs are the
validated `processor/models.py::ParagraphBlock` instances (which the constructor
calls can never produce, see `validatePydParagraph`), and an error short-circuits
the whole walk. -/

/-- `ParagraphBlock.text` on a validated `processor/models.py` paragraph: the
read-only span-concatenation property. -/
def PydParagraph.text (p : PydParagraph) : String :=
  spansText p.spans

/-- `getattr(block, "heading", 0)` over the `processor/models.py`-shaped blocks. -/
def MBlock.headingAttr : MBlock → Int
  | .para _ heading _ _ => heading
  | _ => 0

/-- `_should_skip_paragraph` as it would execute on a `processor/models.py`
paragraph (same logic; `pb.text` is the span-concatenation property). -/
def shouldSkipParagraphM (cfg : Config) (pb : PydParagraph) (tracker : Tracker) :
    Bool :=
  if pyStrip pb.text = "" then true
  else if cfg.skipPatterns.any (fun pat => pyIn pat (pyLower pb.text)) then true
  else
    let normalized := normText pb.text
    if tracker.isDuplicate normalized && decide (pb.heading = 0) then true
    else if tracker.isSubstringDuplicate normalized then
      if pb.heading = 0 then true
      else if (lookupIdx normalized tracker.textToIndex).isSome then false
      else false
    else false

/-- The in-progress output list and tracker, over `processor/models.py`-shaped
blocks. -/
structure PStateM where
  blocks : List MBlock
  tracker : Tracker
deriving DecidableEq

/-- The heading-over-paragraph supersede step over `processor/models.py`-shaped
blocks. -/
def supersedeStepM (st : PStateM) (pb : PydParagraph) (normalized : String) :
    PStateM :=
  match (if pb.heading > 0 then lookupIdx normalized st.tracker.textToIndex
         else none) with
  | some idx =>
      if h : idx < st.blocks.length then
        if (st.blocks.get ⟨idx, h⟩).headingAttr = 0 then
          { blocks := st.blocks.eraseIdx idx
            tracker := st.tracker.removeAtIndex idx }
        else st
      else st
  | none => st

/-- The paragraph-loop body over `processor/models.py`-shaped paragraphs. -/
def processParaM (cfg : Config) (st : PStateM) (pb : PydParagraph) : PStateM :=
  if shouldSkipParagraphM cfg pb st.tracker then st
  else
    let st1 := supersedeStepM st pb (normText pb.text)
    { blocks := st1.blocks ++ [.para pb.spans pb.heading pb.isCode pb.bbox]
      tracker := st1.tracker.add (normText pb.text) st1.blocks.length }

/-- One main-loop step of `_process_blocks` with the pydantic construction of
`ParagraphBlock(...)` explicit: a `ValidationError` raised inside
`_handle_text_block` propagates. -/
def processRawChecked (cfg : Config) (m : PageMetrics) (hthr fthr : Rat)
    (st : PStateM) (rb : RawBlock) : Except (List String) PStateM :=
  if rb.bboxOf.y0 < hthr ∨ rb.bboxOf.y0 > fthr then .ok st
  else
    match rb with
    | .text tb =>
        if rb.bboxOf.x1 - rb.bboxOf.x0 < 50 then .ok st
        else (handleTextBlockChecked cfg tb m).map fun ps =>
          ps.foldl (processParaM cfg) st
    | .image src _ bbox =>
        if st.tracker.isImageDuplicate src then .ok st
        else .ok
          { blocks := st.blocks ++
              [.image src (some "")
                (pyRound (bbox.x1 - bbox.x0), pyRound (bbox.y1 - bbox.y0)) bbox]
            tracker := st.tracker.addImage src }
    | .table rows bbox =>
        if st.tracker.isTableDuplicate rows then .ok st
        else .ok
          { blocks := st.blocks ++ [.table rows bbox]
            tracker := st.tracker.addTable rows }
    | .link _ _ _ => .ok st
    | .blist _ _ _ _ => .ok st

/-- `processor/core.py::_process_blocks` with the pydantic boundary explicit:
the first `ValidationError` aborts the whole walk, as a raised exception does. -/
def processBlocksChecked (cfg : Config) (raws : RawBlockArray) (m : PageMetrics)
    (hthr fthr : Rat) : Except (List String) (List MBlock) :=
  (raws.blocks.foldlM (processRawChecked cfg m hthr fthr)
    { blocks := [], tracker := Tracker.init }).map (·.blocks)

/-! ## Statement-level definitions -/

/-- One join of the span-rendering rule as the specification words it: insert a
single space unless the text so far is empty or ends in whitespace, or the next
rendered span is empty or begins with closing punctuation. -/
def specStep (acc t : String) : String :=
  if acc ≠ "" ∧ ¬ isSpaceChar acc.back ∧ t ≠ "" ∧ ¬ inClosePunct t.front then
    acc ++ " " ++ t
  else acc ++ t

/-- The span-joining rule as the specification words it: concatenate the wrapped
spans with `specStep` joins. -/
def specJoinStrings (l : List String) : String :=
  l.foldl specStep ""

/-- `config.bold_threshold` replaced, all else fixed. -/
def Config.withBold (cfg : Config) (t : Rat) : Config :=
  { cfg with boldThreshold := t }

/-- The bold flag the paragraph loop of `_handle_text_block` computes
(core.py line 125) just before its `ParagraphBlock(...)` construction. -/
def boldFlag (cfg : Config) (b : TextRaw) (m : PageMetrics) : Bool :=
  decide (b.fontWeight ≥ m.fontWeight.mean * (1 + cfg.boldThreshold))

/-! ## Concrete inputs used by counterexamples and witnesses -/

/-- A configuration with all ratio thresholds inside the validated `[0,1]` range
(2% header band, 2% footer band, 0.65 small-text ratio, no skip patterns, no
font-size heading table). -/
def cfgEx : Config :=
  { readingOrderYTolerance := 5, boldThreshold := 0, headerThreshold := 1 / 50,
    footerThreshold := 49 / 50, smallTextThreshold := 13 / 20, skipPatterns := [],
    headerThresholds := [] }

/-- A mid-page bounding box (survives the 2%/98% bands when `max_y = 60`). -/
def bbMid : BBox := { x0 := 0, y0 := 50, x1 := 100, y1 := 60 }

/-- A language-selector link (`/es/...` first path segment). -/
def linkEs : RawBlock :=
  .link "https://example.com/es/docs" [{ text := "Docs" }] bbMid

/-- A content link that the spec says must be retained. -/
def linkBlog : RawBlock :=
  .link "https://example.com/blog/post" [{ text := "My post" }] bbMid

/-- A raw list block. -/
def listMid : RawBlock := .blist [[{ text := "item" }]] false 0 bbMid

/-- Text block with font weight −15 (pydantic accepts any float). -/
def tbNegA : TextRaw := { text := "aaa", fontSize := 10, fontWeight := -15, bbox := bbMid }

/-- Text block with font weight −5. -/
def tbNegB : TextRaw := { text := "bbb", fontSize := 10, fontWeight := -5, bbox := bbMid }

/-- The two-block page whose mean font weight is −10. -/
def arrNeg : RawBlockArray := { url := "u", blocks := [.text tbNegA, .text tbNegB] }

/-- An ordinary text block used by witnesses. -/
def tbPlain : TextRaw := { text := "Overview", fontSize := 10, fontWeight := 400, bbox := bbMid }

/-- A semantic `h2` text block with the same text as `tbPlain`. -/
def tbHead : TextRaw :=
  { text := "Overview", fontSize := 10, fontWeight := 400, headingLevel := 2,
    bbox := { x0 := 0, y0 := 52, x1 := 100, y1 := 60 } }

/-- Paragraph followed by a heading with identical normalized text. -/
def arrPromote : RawBlockArray := { url := "u", blocks := [.text tbPlain, .text tbHead] }

/-- Page metrics of `arrPromote` (font size 10, font weight 400 throughout). -/
def mPromote : PageMetrics := computePageMetrics arrPromote

/-- Page metrics of `arrNeg` (font size 10 throughout, mean font weight −10). -/
def mNeg : PageMetrics := computePageMetrics arrNeg

/-- The code-tagged raw text block of the code-block scenario. -/
def tbCode : TextRaw :=
  { text := "x=1\n\ny=2", fontSize := 10, fontWeight := 400, isCode := true, bbox := bbMid }

/-- An image raw block. -/
def imgMid : RawBlock := .image "pic.png" (some "a picture") bbMid

/-- A bounding box with negative width (`x1 < x0`). -/
def bbNeg : BBox := { x0 := 10, y0 := 0, x1 := 0, y1 := 10 }

/-! ## Helper lemma about the supersede step -/

/-- The supersede step only ever deletes from the output list. -/
theorem supersedeStep_sublist (st : PState) (pb : ParagraphBlock) (n : String) :
    (supersedeStep st pb n).blocks.Sublist st.blocks := by
  unfold supersedeStep
  split
  · split
    · split
      · exact List.eraseIdx_sublist _ _
      · exact List.Sublist.refl _
    · exact List.Sublist.refl _
  · exact List.Sublist.refl _

/-! ## Generic output-shape lemma for the block processor -/

/-- Predicates that hold for every block the processor can append are invariant
under one paragraph-loop step. -/
theorem processPara_all {P : PBlock → Prop} (hpara : ∀ p, P (.para p))
    (cfg : Config) {st : PState} (hst : ∀ b ∈ st.blocks, P b) (pb : ParagraphBlock) :
    ∀ b ∈ (processPara cfg st pb).blocks, P b := by
  intro b hb
  unfold processPara at hb
  by_cases hskip : shouldSkipParagraph cfg pb st.tracker
  · rw [if_pos hskip] at hb
    exact hst b hb
  · rw [if_neg hskip] at hb
    simp only at hb
    rcases List.mem_append.mp hb with h1 | h1
    · exact hst b ((supersedeStep_sublist st pb (normText pb.text)).subset h1)
    · rcases List.mem_singleton.mp h1 with rfl
      exact hpara pb

/-- Predicates that hold for every block the processor can append are invariant
under one main-loop step. -/
theorem processRaw_all {P : PBlock → Prop} (hpara : ∀ p, P (.para p))
    (himg : ∀ src dims bb, P (.image src (some "") dims bb))
    (htab : ∀ rows bb, P (.table rows bb))
    (cfg : Config) (m : PageMetrics) (hthr fthr : Rat) {st : PState}
    (hst : ∀ b ∈ st.blocks, P b) (rb : RawBlock) :
    ∀ b ∈ (processRaw cfg m hthr fthr st rb).blocks, P b := by
  unfold processRaw
  by_cases hband : rb.bboxOf.y0 < hthr ∨ rb.bboxOf.y0 > fthr
  · rw [if_pos hband]; exact hst
  · rw [if_neg hband]
    cases rb with
    | text tb =>
        simp only
        by_cases hw : (RawBlock.text tb).bboxOf.x1 - (RawBlock.text tb).bboxOf.x0 < 50
        · rw [if_pos hw]; exact hst
        · rw [if_neg hw]
          generalize handleTextBlock cfg tb m = ps
          induction ps generalizing st with
          | nil => exact hst
          | cons p ps ih => exact ih (processPara_all hpara cfg hst p)
    | image src alt bb =>
        simp only
        by_cases hdup : st.tracker.isImageDuplicate src
        · rw [if_pos hdup]; exact hst
        · rw [if_neg hdup]
          intro b hb
          rcases List.mem_append.mp hb with h1 | h1
          · exact hst b h1
          · rcases List.mem_singleton.mp h1 with rfl
            exact himg _ _ _
    | table rows bb =>
        simp only
        by_cases hdup : st.tracker.isTableDuplicate rows
        · rw [if_pos hdup]; exact hst
        · rw [if_neg hdup]
          intro b hb
          rcases List.mem_append.mp hb with h1 | h1
          · exact hst b h1
          · rcases List.mem_singleton.mp h1 with rfl
            exact htab _ _
    | link href spans bb => exact hst
    | blist items ordered level bb => exact hst

/-- Every block in the processor output is a paragraph, a table, or an image with
empty `alt`. -/
theorem processBlocks_all {P : PBlock → Prop} (hpara : ∀ p, P (.para p))
    (himg : ∀ src dims bb, P (.image src (some "") dims bb))
    (htab : ∀ rows bb, P (.table rows bb))
    (cfg : Config) (raws : RawBlockArray) (m : PageMetrics) (hthr fthr : Rat) :
    ∀ b ∈ processBlocks cfg raws m hthr fthr, P b := by
  unfold processBlocks
  generalize hinit : ({ blocks := [], tracker := Tracker.init } : PState) = st0
  have h0 : ∀ b ∈ st0.blocks, P b := by
    subst hinit; intro b hb; exact absurd hb (List.not_mem_nil b)
  clear hinit
  induction raws.blocks generalizing st0 with
  | nil => exact h0
  | cons rb rest ih =>
      exact ih _ (processRaw_all hpara himg htab cfg m hthr fthr h0 rb)

/-! ## Claim theorems -/

/-- C1.  The claim states that raw List and Link blocks surviving header/footer
trimming pass through unchanged into the output of `extract_blocks`.  The code
contradicts it: Link and List blocks fall into the `case RawBlock(): pass`
catch-all of `_process_blocks` and are silently dropped.  Concretely, a page
holding only one Link and one List block, both inside the kept band, produces an
empty classified block list; moreover no output of the processor is ever a Link
or List block, for any input. -/
theorem link_and_list_blocks_dropped :
    extractBlocks cfgEx { url := "u", blocks := [linkEs, listMid] } =
      { url := "u", blocks := [] } ∧
    ∀ (cfg : Config) (raws : RawBlockArray) (m : PageMetrics) (hthr fthr : Rat),
      ∀ b ∈ processBlocks cfg raws m hthr fthr,
        (∀ href spans bb, b ≠ .link href spans bb) ∧
        (∀ items ordered level bb, b ≠ .plist items ordered level bb) := by
  constructor
  · rfl
  · intro cfg raws m hthr fthr
    exact processBlocks_all
      (fun p => ⟨fun _ _ _ h => PBlock.noConfusion h,
                 fun _ _ _ _ h => PBlock.noConfusion h⟩)
      (fun src dims bb => ⟨fun _ _ _ h => PBlock.noConfusion h,
                           fun _ _ _ _ h => PBlock.noConfusion h⟩)
      (fun rows bb => ⟨fun _ _ _ h => PBlock.noConfusion h,
                       fun _ _ _ _ h => PBlock.noConfusion h⟩)
      cfg raws m hthr fthr

/-- C3.  For the code-block scenario (`is_code=true`, text `"x=1\n\ny=2"`), the
classifier logic of `_handle_text_block` computes exactly one paragraph value with
`heading=0`, `is_code=true` and the text unsplit — but the `ParagraphBlock(...)`
constructor call does not pass the `spans` field that `processor/models.py`
requires (it passes `text`/`bold`/`italic`, which are not fields), so pydantic
validation fails instead of emitting the paragraph. -/
theorem code_block_paragraph_construction (cfg : Config) (m : PageMetrics)
    (sp : Option (List Span)) (fs fw : Rat) (ff : Option String) (hl : Int)
    (bq : Bool) (bb : BBox) :
    handleTextBlockChecked cfg
        { text := "x=1\n\ny=2", spans := sp, fontSize := fs, fontWeight := fw,
          fontFamily := ff, headingLevel := hl, isCode := true, isBlockquote := bq,
          bbox := bb } m = .error ["spans"] ∧
    handleTextBlock cfg
        { text := "x=1\n\ny=2", spans := sp, fontSize := fs, fontWeight := fw,
          fontFamily := ff, headingLevel := hl, isCode := true, isBlockquote := bq,
          bbox := bb } m =
      [{ text := "x=1\n\ny=2", bold := false, italic := false, heading := 0,
         isCode := true, bbox := bb }] :=
  ⟨rfl, rfl⟩

/-- C4.  The claim expects the `/es/docs` link to be removed by the post-filter
chain and the `/blog/post` link to be retained.  In the code, both links are
already dropped inside `_process_blocks` (catch-all case), so after block
processing followed by the full post-filter chain the `/blog/post` link is absent
as well — whatever language-code and language-name sets the filters are built
with. -/
theorem language_link_scenario (isoLangCodes langNames : List String) :
    filterBlocks isoLangCodes langNames
        (extractBlocks cfgEx { url := "u", blocks := [linkEs, linkBlog] }).blocks
      = [] := by
  rfl

/-- C9 counterexample.  Constructing a raw block whose bounding box has negative
width (`x1 < x0`) succeeds: `blocks/models.py::Block` declares no validator, so
pydantic accepts the box at construction time — the claimed fail-fast validation
error does not occur. -/
theorem negative_bbox_accepted_at_construction :
    validateBlockBase RawBlockType.text bbNeg =
      .ok { type := RawBlockType.text, bbox := bbNeg } ∧
    bbNeg.x1 < bbNeg.x0 :=
  ⟨rfl, by decide⟩

/-- C9 amended.  Construction of a block never validates the bounding-box
geometry; the `ValueError` is raised only when `bbox_size` is invoked on the
malformed box during later processing (`bbox_size` errors exactly when the width
or height is negative). -/
theorem bbox_validation_deferred_to_bbox_size :
    (∀ (ty : RawBlockType) (bb : BBox),
        validateBlockBase ty bb = .ok { type := ty, bbox := bb }) ∧
    (∀ bb : BBox, bboxSize bb = .error "Invalid bbox" ↔ (bb.x1 < bb.x0 ∨ bb.y1 < bb.y0)) := by
  refine ⟨fun ty bb => rfl, fun bb => ?_⟩
  unfold bboxSize
  by_cases h1 : bb.x1 < bb.x0 <;> by_cases h2 : bb.y1 < bb.y0 <;>
    simp [sub_neg, h1, h2]

/-- C10.  Every image block the processor appends carries `alt=""` regardless of
the raw block's `alt`, and the renderer emits the literal alt text `"Image"` for
an image with empty `alt`. -/
theorem image_alt_forced_empty :
    (∀ (cfg : Config) (raws : RawBlockArray) (m : PageMetrics) (hthr fthr : Rat)
        (src : String) (alt : Option String) (dims : Int × Int) (bb : BBox),
        PBlock.image src alt dims bb ∈ processBlocks cfg raws m hthr fthr →
        alt = some "") ∧
    (∀ (src : String) (dims : Int × Int) (bb : BBox),
        markdownBlocks [MBlock.image src (some "") dims bb] =
          "![Image](" ++ src ++ ") " ++ toString dims.1 ++ "x" ++ toString dims.2
            ++ "\n\n") := by
  constructor
  · intro cfg raws m hthr fthr src alt dims bb hmem
    have := processBlocks_all
      (P := fun b => ∀ src alt dims bb, b = .image src alt dims bb → alt = some "")
      (fun p => by intro src alt dims bb h; cases h)
      (fun src dims bb => by
        intro src2 alt2 dims2 bb2 h
        cases h
        rfl)
      (fun rows bb => by intro src alt dims bb h; cases h)
      cfg raws m hthr fthr _ hmem
    exact this src alt dims bb rfl
  · intro src dims bb
    show String.join (["![" ++ "Image" ++ "](" ++ src ++ ") " ++ toString dims.1 ++
      "x" ++ toString dims.2 ++ "\n\n"] ++ []) = _
    simp [String.join]

/-- Witness for C1: the second conjunct applied to a concrete processor run (one
image block) whose output block is concretely in the output list. -/
theorem link_and_list_blocks_dropped_witness :
    PBlock.image "pic.png" (some "") (100, 10) bbMid ≠
      PBlock.link "https://example.com/a" [] bbMid :=
  (link_and_list_blocks_dropped.2 cfgEx { url := "u", blocks := [imgMid] }
      mPromote 0 100 (PBlock.image "pic.png" (some "") (100, 10) bbMid)
      (by decide)).1 "https://example.com/a" [] bbMid

/-- Witness for C10: the alt-forcing conjunct applied to a concrete processor run
containing one image, with the membership hypothesis discharged by evaluation. -/
theorem image_alt_forced_empty_witness :
    (some "" : Option String) = some "" :=
  image_alt_forced_empty.1 cfgEx { url := "u", blocks := [imgMid] } mPromote 0 100
    "pic.png" (some "") (100, 10) bbMid (by decide)

/-! ## C7: span rendering -/

/-- With a positive enumerate index, one `_format_spans` iteration is exactly one
spec-side join of the wrapped text. -/
theorem fsStep_eq_specStep (sp : Span) (acc : String) (n : Nat) (hn : 0 < n) :
    fsStep (acc, n) sp = (specStep acc (renderSpanText sp), n + 1) := by
  unfold fsStep specStep
  dsimp only
  by_cases h1 : acc ≠ "" ∧ ¬ isSpaceChar acc.back
  · by_cases h2 : renderSpanText sp ≠ "" ∧ ¬ inClosePunct (renderSpanText sp).front
    · rw [if_pos ⟨hn, h1.1, h1.2⟩, if_pos h2, if_pos ⟨h1.1, h1.2, h2.1, h2.2⟩]
    · rw [if_pos ⟨hn, h1.1, h1.2⟩, if_neg h2,
        if_neg (fun hc => h2 ⟨hc.2.2.1, hc.2.2.2⟩)]
  · rw [if_neg (fun hc => h1 ⟨hc.2.1, hc.2.2⟩), if_neg (fun hc => h1 ⟨hc.1, hc.2.1⟩)]

/-- The index-zero iteration: no space is ever inserted before the first span. -/
theorem fsStep_zero (sp : Span) :
    fsStep ("", 0) sp = (specStep "" (renderSpanText sp), 1) := by
  unfold fsStep specStep
  dsimp only
  rw [if_neg (fun hc => Nat.lt_irrefl 0 hc.1), if_neg (fun hc => hc.1 rfl)]

/-- The `_format_spans` fold agrees with the spec-side fold from any positive
index. -/
theorem formatSpans_fold (l : List Span) :
    ∀ (acc : String) (n : Nat), 0 < n →
      (l.foldl fsStep (acc, n)).1 = (l.map renderSpanText).foldl specStep acc := by
  induction l with
  | nil => intro acc n _; rfl
  | cons sp l ih =>
      intro acc n hn
      simp only [List.foldl_cons, List.map_cons]
      rw [fsStep_eq_specStep sp acc n hn]
      exact ih _ _ (Nat.succ_pos n)

/-- C7.  Span rendering: each span's text is wrapped per its format set
(bold→`**x**`, italic→`*x*`, code→`` `x` ``, unknown tags ignored), and the
wrapped spans are concatenated with a single space inserted at each join unless
the text so far ends in whitespace or the next span begins with closing
punctuation — i.e. `_format_spans` equals the spec-side join of the wrapped
spans. -/
theorem span_rendering_rules :
    (∀ spans : List Span,
        formatSpans spans = specJoinStrings (spans.map renderSpanText)) ∧
    (∀ t, renderSpanText { text := t, formats := ["bold"] } = "**" ++ t ++ "**") ∧
    (∀ t, renderSpanText { text := t, formats := ["italic"] } = "*" ++ t ++ "*") ∧
    (∀ t, renderSpanText { text := t, formats := ["code"] } = "`" ++ t ++ "`") ∧
    (∀ (t fmt : String), fmt ∉ (["bold", "italic", "code"] : List String) →
        renderSpanText { text := t, formats := [fmt] } = t) := by
  refine ⟨?_, fun t => rfl, fun t => rfl, fun t => rfl, ?_⟩
  · intro spans
    cases spans with
    | nil => rfl
    | cons sp l =>
        unfold formatSpans specJoinStrings
        rw [if_neg (by simp)]
        simp only [List.foldl_cons, List.map_cons]
        rw [fsStep_zero sp]
        exact formatSpans_fold l _ 1 Nat.one_pos
  · intro t fmt hf
    unfold renderSpanText
    simp only [List.foldl_cons, List.foldl_nil]
    unfold wrapOne
    rw [if_neg (fun h => hf (by rw [h]; simp)),
        if_neg (fun h => hf (by rw [h]; simp)),
        if_neg (fun h => hf (by rw [h]; simp))]
    exact ite_self t

/-- Witness for C7: an unknown format tag on a concrete span leaves its text
unchanged (the hypothesis discharged at `fmt = "blink"`). -/
theorem span_rendering_rules_witness :
    renderSpanText { text := "x", formats := ["blink"] } = "x" :=
  span_rendering_rules.2.2.2.2 "x" "blink" (by decide)

/-! ## C5/C6: the reading-order normalizer -/

/-- The lexicographic key order, unfolded. -/
theorem leKey_iff {a b : RawBlock} :
    leKey a b = true ↔
      (a.bboxOf.y0 < b.bboxOf.y0 ∨
        (a.bboxOf.y0 = b.bboxOf.y0 ∧ a.bboxOf.x0 ≤ b.bboxOf.x0)) := by
  simp [leKey]

/-- The key order is total. -/
theorem leKey_total (a b : RawBlock) : leKey a b = true ∨ leKey b a = true := by
  rw [leKey_iff, leKey_iff]
  rcases lt_trichotomy a.bboxOf.y0 b.bboxOf.y0 with h | h | h
  · exact Or.inl (Or.inl h)
  · rcases le_total a.bboxOf.x0 b.bboxOf.x0 with hx | hx
    · exact Or.inl (Or.inr ⟨h, hx⟩)
    · exact Or.inr (Or.inr ⟨h.symm, hx⟩)
  · exact Or.inr (Or.inl h)

/-- The key order is transitive. -/
theorem leKey_trans {a b c : RawBlock} (h1 : leKey a b = true)
    (h2 : leKey b c = true) : leKey a c = true := by
  rw [leKey_iff] at h1 h2 ⊢
  rcases h1 with h1 | ⟨h1e, h1x⟩ <;> rcases h2 with h2 | ⟨h2e, h2x⟩
  · exact Or.inl (lt_trans h1 h2)
  · exact Or.inl (h2e ▸ h1)
  · exact Or.inl (h1e ▸ h2)
  · exact Or.inr ⟨h1e.trans h2e, le_trans h1x h2x⟩

/-- Key-ties are exactly blocks agreeing on both coordinates of the key. -/
theorem leKey_tie {a b : RawBlock} (h1 : leKey a b = true) (h2 : leKey b a = true) :
    a.bboxOf.y0 = b.bboxOf.y0 ∧ a.bboxOf.x0 = b.bboxOf.x0 := by
  rw [leKey_iff] at h1 h2
  constructor <;>
    (rcases h1 with h1 | ⟨h1e, h1x⟩ <;> rcases h2 with h2 | ⟨h2e, h2x⟩ <;> linarith)

/-- Insertion is a permutation. -/
theorem insB_perm (a : RawBlock) (l : List RawBlock) : List.Perm (insB a l) (a :: l) := by
  induction l with
  | nil => exact List.Perm.refl _
  | cons c l ih =>
      unfold insB
      by_cases h : leKey a c = true
      · rw [if_pos h]
      · rw [if_neg h]
        exact (List.Perm.cons c ih).trans (List.Perm.swap a c l)

/-- The key sort is a permutation. -/
theorem sortB_perm (l : List RawBlock) : List.Perm (sortB l) l := by
  induction l with
  | nil => exact List.Perm.refl _
  | cons a l ih => exact (insB_perm a (sortB l)).trans (List.Perm.cons a ih)

/-- x-insertion is a permutation. -/
theorem insX_perm (a : RawBlock) (l : List RawBlock) : List.Perm (insX a l) (a :: l) := by
  induction l with
  | nil => exact List.Perm.refl _
  | cons c l ih =>
      unfold insX
      by_cases h : leX a c = true
      · rw [if_pos h]
      · rw [if_neg h]
        exact (List.Perm.cons c ih).trans (List.Perm.swap a c l)

/-- The per-line sort is a permutation. -/
theorem sortX_perm (l : List RawBlock) : List.Perm (sortX l) l := by
  induction l with
  | nil => exact List.Perm.refl _
  | cons a l ih => exact (insX_perm a (sortX l)).trans (List.Perm.cons a ih)

/-- The grouping walk emits a permutation of the pending line and the rest. -/
theorem flushWalk_perm (tol : Rat) (rest : List RawBlock) :
    ∀ (lastY : Rat) (cur : List RawBlock),
      List.Perm (flushWalk tol rest lastY cur) (cur ++ rest) := by
  induction rest with
  | nil =>
      intro lastY cur
      simpa using sortX_perm cur
  | cons b rest ih =>
      intro lastY cur
      unfold flushWalk
      by_cases h : ratAbs (b.bboxOf.y0 - lastY) ≤ tol
      · rw [if_pos h]
        refine (ih b.bboxOf.y0 (cur ++ [b])).trans ?_
        rw [List.append_assoc, List.singleton_append]
      · rw [if_neg h]
        refine ((sortX_perm cur).append (ih b.bboxOf.y0 [b])).trans ?_
        rw [List.singleton_append]

/-- The reading-order pass permutes its input. -/
theorem readingOrderList_perm (tol : Rat) (l : List RawBlock) :
    List.Perm (readingOrderList tol l) l := by
  unfold readingOrderList walkSorted
  split
  · next heq => exact heq ▸ (sortB_perm l).symm |>.symm
  · next b rest heq =>
      refine (flushWalk_perm tol rest b.bboxOf.y0 [b]).trans ?_
      rw [List.singleton_append, ← heq]
      exact sortB_perm l

/-- Insertion preserves key-sortedness. -/
theorem insB_pairwise {l : List RawBlock}
    (hl : l.Pairwise (fun a b => leKey a b = true)) (a : RawBlock) :
    (insB a l).Pairwise (fun a b => leKey a b = true) := by
  induction l with
  | nil => simp [insB]
  | cons c l ih =>
      rcases List.pairwise_cons.mp hl with ⟨hc, hl'⟩
      unfold insB
      by_cases h : leKey a c = true
      · rw [if_pos h]
        refine List.pairwise_cons.mpr ⟨?_, hl⟩
        intro x hx
        rcases List.mem_cons.mp hx with rfl | hx
        · exact h
        · exact leKey_trans h (hc x hx)
      · rw [if_neg h]
        refine List.pairwise_cons.mpr ⟨?_, ih hl'⟩
        intro x hx
        rcases List.mem_cons.mp ((insB_perm a l).mem_iff.mp hx) with h1 | h1
        · rw [h1]
          exact (leKey_total a c).resolve_left h
        · exact hc x h1

/-- The key sort sorts. -/
theorem sortB_pairwise (l : List RawBlock) :
    (sortB l).Pairwise (fun a b => leKey a b = true) := by
  induction l with
  | nil => simp [sortB]
  | cons a l ih => exact insB_pairwise ih a

/-- Inserting below the whole list lands at the head. -/
theorem insB_eq_cons {l : List RawBlock} {a : RawBlock}
    (h : ∀ x ∈ l, leKey a x = true) : insB a l = a :: l := by
  cases l with
  | nil => rfl
  | cons c l =>
      unfold insB
      rw [if_pos (h c (List.mem_cons_self c l))]

/-- Sorting a sorted list is the identity. -/
theorem sortB_eq_self {l : List RawBlock}
    (hl : l.Pairwise (fun a b => leKey a b = true)) : sortB l = l := by
  induction l with
  | nil => rfl
  | cons a l ih =>
      rcases List.pairwise_cons.mp hl with ⟨ha, hl'⟩
      show insB a (sortB l) = a :: l
      rw [ih hl']
      exact insB_eq_cons ha

/-- Inserting an element below a right part leaves that part in place. -/
theorem insB_append_ge {v : List RawBlock} {a : RawBlock}
    (hv : ∀ c ∈ v, leKey a c = true) (u : List RawBlock) :
    insB a (u ++ v) = insB a u ++ v := by
  induction u with
  | nil =>
      rw [List.nil_append]
      show insB a v = [a] ++ v
      rw [insB_eq_cons hv, List.singleton_append]
  | cons d u ih =>
      show insB a (d :: (u ++ v)) = insB a (d :: u) ++ v
      unfold insB
      by_cases h : leKey a d = true
      · rw [if_pos h, if_pos h]
        rfl
      · rw [if_neg h, if_neg h, List.cons_append, ih]

/-- Stable sort splits over an append when the left part is key-below the right. -/
theorem sortB_append {l₁ l₂ : List RawBlock}
    (h : ∀ x ∈ l₁, ∀ c ∈ l₂, leKey x c = true) :
    sortB (l₁ ++ l₂) = sortB l₁ ++ sortB l₂ := by
  induction l₁ with
  | nil => simp [sortB]
  | cons a l₁ ih =>
      show insB a (sortB (l₁ ++ l₂)) = insB a (sortB l₁) ++ sortB l₂
      rw [ih (fun x hx c hc => h x (List.mem_cons_of_mem a hx) c hc)]
      exact insB_append_ge
        (fun c hc => h a (List.mem_cons_self a l₁) c ((sortB_perm l₂).mem_iff.mp hc))
        (sortB l₁)

/-- Two strictly key-ordered insertions commute. -/
theorem insB_comm_lt {a c : RawBlock} (hac : leKey a c = true)
    (hca : leKey c a = false) (w : List RawBlock) :
    insB c (insB a w) = insB a (insB c w) := by
  induction w with
  | nil =>
      show insB c [a] = insB a [c]
      simp [insB, hca, hac]
  | cons d w ih =>
      by_cases hcd : leKey c d = true
      · have had : leKey a d = true := leKey_trans hac hcd
        simp [insB, had, hcd, hca, hac]
      · rw [Bool.not_eq_true] at hcd
        by_cases had : leKey a d = true
        · simp [insB, had, hcd, hca, hac]
        · rw [Bool.not_eq_true] at had
          simp [insB, had, hcd, ih]

/-- Insertions of non-tied elements commute. -/
theorem insB_comm {a c : RawBlock}
    (h : ¬(leKey a c = true ∧ leKey c a = true)) (w : List RawBlock) :
    insB c (insB a w) = insB a (insB c w) := by
  rcases leKey_total a c with hac | hca
  · have hca : leKey c a = false := by
      cases h1 : leKey c a
      · rfl
      · exact absurd ⟨hac, h1⟩ h
    exact insB_comm_lt hac hca w
  · have hac : leKey a c = false := by
      cases h1 : leKey a c
      · rfl
      · exact absurd ⟨h1, hca⟩ h
    exact (insB_comm_lt hca hac w).symm

/-- A failed x-comparison rules out a key-tie. -/
theorem leX_false_not_tie {a c : RawBlock} (hx : leX a c = false) :
    ¬(leKey a c = true ∧ leKey c a = true) := by
  rintro ⟨h1, h2⟩
  have htie := (leKey_tie h1 h2).2
  have : ¬ (a.bboxOf.x0 ≤ c.bboxOf.x0) := by simpa [leX] using hx
  exact this (le_of_eq htie)

/-- Key-sorting after an x-insertion equals key-inserting into the key sort:
the x-insertion only moves the element across strictly-smaller-x (hence
non-tied) elements. -/
theorem sortB_insX (a : RawBlock) (w : List RawBlock) :
    sortB (insX a w) = insB a (sortB w) := by
  induction w with
  | nil => rfl
  | cons c w ih =>
      by_cases hx : leX a c = true
      · have h1 : insX a (c :: w) = a :: c :: w := by
          rw [insX, if_pos hx]
        rw [h1]
        rfl
      · rw [Bool.not_eq_true] at hx
        have h1 : insX a (c :: w) = c :: insX a w := by
          rw [insX, if_neg (by simp [hx])]
        rw [h1]
        show insB c (sortB (insX a w)) = insB a (insB c (sortB w))
        rw [ih]
        exact insB_comm (leX_false_not_tie hx) (sortB w)

/-- Key-sorting undoes the stable x-resort of a key-sorted segment. -/
theorem sortB_sortX {seg : List RawBlock}
    (hseg : seg.Pairwise (fun a b => leKey a b = true)) :
    sortB (sortX seg) = seg := by
  induction seg with
  | nil => rfl
  | cons a seg ih =>
      rcases List.pairwise_cons.mp hseg with ⟨ha, hseg'⟩
      show sortB (insX a (sortX seg)) = a :: seg
      rw [sortB_insX, ih hseg']
      exact insB_eq_cons ha

/-- Key-sorting the grouped-and-flushed walk of a key-sorted sequence recovers
that sequence. -/
theorem sortB_flushWalk (tol : Rat) (rest : List RawBlock) :
    ∀ (lastY : Rat) (cur : List RawBlock),
      (cur ++ rest).Pairwise (fun a b => leKey a b = true) →
      sortB (flushWalk tol rest lastY cur) = cur ++ rest := by
  induction rest with
  | nil =>
      intro lastY cur hks
      rw [List.append_nil] at hks ⊢
      exact sortB_sortX hks
  | cons b rest ih =>
      intro lastY cur hks
      unfold flushWalk
      by_cases h : ratAbs (b.bboxOf.y0 - lastY) ≤ tol
      · rw [if_pos h]
        have hks' : ((cur ++ [b]) ++ rest).Pairwise (fun a b => leKey a b = true) := by
          rw [List.append_assoc, List.singleton_append]
          exact hks
        rw [ih b.bboxOf.y0 (cur ++ [b]) hks']
        rw [List.append_assoc, List.singleton_append]
      · rw [if_neg h]
        rcases List.pairwise_append.mp hks with ⟨hcur, hrest, hcross⟩
        have hmem : ∀ x ∈ sortX cur, ∀ c ∈ flushWalk tol rest b.bboxOf.y0 [b],
            leKey x c = true := by
          intro x hx c hc
          have hx' : x ∈ cur := (sortX_perm cur).mem_iff.mp hx
          have hc' : c ∈ b :: rest := by
            have := (flushWalk_perm tol rest b.bboxOf.y0 [b]).mem_iff.mp hc
            rwa [List.singleton_append] at this
          exact hcross x hx' c hc'
        rw [sortB_append hmem, sortB_sortX hcur]
        have hrest' : (([b] ++ rest)).Pairwise (fun a b => leKey a b = true) := by
          rw [List.singleton_append]
          exact hrest
        rw [ih b.bboxOf.y0 [b] hrest', List.singleton_append]

/-- Key-sorting the reading-order output recovers the key-sorted input. -/
theorem sortB_readingOrderList (tol : Rat) (l : List RawBlock) :
    sortB (readingOrderList tol l) = sortB l := by
  unfold readingOrderList walkSorted
  split
  · next heq => exact heq.symm
  · next b rest heq =>
      have hks := sortB_pairwise l
      rw [heq, ← List.singleton_append] at hks
      rw [sortB_flushWalk tol rest b.bboxOf.y0 [b] hks, List.singleton_append, heq]

/-- The reading-order pass is idempotent on block lists. -/
theorem readingOrderList_idem (tol : Rat) (l : List RawBlock) :
    readingOrderList tol (readingOrderList tol l) = readingOrderList tol l := by
  show walkSorted tol (sortB (readingOrderList tol l)) = readingOrderList tol l
  rw [sortB_readingOrderList]
  rfl

/-- C5.  The Reading-Order Normalizer is idempotent: applying `reading_order` to
its own output returns the output unchanged (same order, same array). -/
theorem reading_order_idempotent (cfg : Config) (arr : RawBlockArray) :
    readingOrder cfg (readingOrder cfg arr) = readingOrder cfg arr := by
  unfold readingOrder
  simp only [RawBlockArray.mk.injEq, true_and]
  exact readingOrderList_idem _ arr.blocks

/-- C6.  The Reading-Order Normalizer neither adds nor drops blocks: its output is
a permutation of its input, i.e. the two block multisets are equal. -/
theorem reading_order_preserves_blocks (cfg : Config) (arr : RawBlockArray) :
    List.Perm (readingOrder cfg arr).blocks arr.blocks ∧
    ((readingOrder cfg arr).blocks : Multiset RawBlock) =
      (arr.blocks : Multiset RawBlock) := by
  have h : List.Perm (readingOrder cfg arr).blocks arr.blocks :=
    readingOrderList_perm _ arr.blocks
  exact ⟨h, Multiset.coe_eq_coe.mpr h⟩

/-! ## C2/C8: the pydantic boundary aborts every paragraph emission -/

/-- Each iteration of the paragraph loop in `_handle_text_block` either skips the
candidate (empty after cleaning, or small text) or raises the missing-`spans`
`ValidationError` at its `ParagraphBlock(...)` call; it can never append. -/
theorem emitParaChecked_cases (cfg : Config) (b : TextRaw) (m : PageMetrics)
    (acc : List PydParagraph) (s : String) :
    emitParaChecked cfg b m acc s = .error ["spans"] ∨
    emitParaChecked cfg b m acc s = .ok acc := by
  unfold emitParaChecked
  dsimp only
  split
  · right; rfl
  · split
    · right; rfl
    · left; rfl

/-- The paragraph loop over any candidate list either aborts with the
missing-`spans` error or finishes having appended nothing. -/
theorem foldlM_emitChecked (cfg : Config) (b : TextRaw) (m : PageMetrics)
    (l : List String) (acc : List PydParagraph) :
    l.foldlM (emitParaChecked cfg b m) acc = .error ["spans"] ∨
    l.foldlM (emitParaChecked cfg b m) acc = .ok acc := by
  induction l generalizing acc with
  | nil => right; rfl
  | cons s t ih =>
      rw [List.foldlM_cons]
      rcases emitParaChecked_cases cfg b m acc s with h | h
      · rw [h]; left; rfl
      · rw [h]; exact ih acc

/-- `_handle_text_block` never returns a paragraph: every run either skips all
candidates or raises the missing-`spans` `ValidationError`. -/
theorem handleTextBlockChecked_never_emits (cfg : Config) (b : TextRaw)
    (m : PageMetrics) :
    handleTextBlockChecked cfg b m = .error ["spans"] ∨
    handleTextBlockChecked cfg b m = .ok [] := by
  unfold handleTextBlockChecked
  dsimp only
  split
  · right; rfl
  · split
    · left; rfl
    · split
      · right; rfl
      · exact foldlM_emitChecked cfg b m _ []

/-- C2.  The claim quantifies over completed runs of the Block Processor and the
paragraphs that reach `_should_skip_paragraph`'s duplicate check.  No such run
exists: for every configuration, text block and page metrics,
`_handle_text_block` either returns no paragraphs or raises the missing-`spans`
`ValidationError` at its first `ParagraphBlock(...)` call, so no paragraph ever
reaches the duplicate check; and on the claim's own interleaved-duplicate page
(paragraph "Overview" followed by an `h2` heading "Overview", both wide and
inside the kept band) the processor aborts with that error instead of returning
a deduplicated block list. -/
theorem duplicate_check_never_reached :
    (∀ cfg b m, handleTextBlockChecked cfg b m = .error ["spans"] ∨
        handleTextBlockChecked cfg b m = .ok []) ∧
    processBlocksChecked cfgEx arrPromote mPromote 0 100 = .error ["spans"] :=
  ⟨handleTextBlockChecked_never_emits, rfl⟩

/-- C8.  The bold-count comparison the claim quantifies over never takes place.
On the fixed two-block page with font weights −15 and −5 (mean −10) and the
in-range thresholds `t1 = 0 < t2 = 1`, the classifier raises the missing-`spans`
`ValidationError` at both thresholds, so the program marks no paragraph bold at
either threshold; moreover the bold flag `_handle_text_block` computes just
before the failed `ParagraphBlock(...)` call is `false` at threshold `0` but
`true` at threshold `1` — with a negative mean font weight even the intended
flag grows with the threshold. -/
theorem bold_threshold_comparison_never_happens :
    ((cfgEx.withBold 0).validThresholds ∧ (cfgEx.withBold 1).validThresholds) ∧
    (processBlocksChecked (cfgEx.withBold 0) arrNeg mNeg 0 100 = .error ["spans"] ∧
     processBlocksChecked (cfgEx.withBold 1) arrNeg mNeg 0 100 = .error ["spans"]) ∧
    (boldFlag (cfgEx.withBold 0) tbNegA mNeg = false ∧
     boldFlag (cfgEx.withBold 1) tbNegA mNeg = true) :=
  ⟨⟨by unfold Config.validThresholds; decide, by unfold Config.validThresholds; decide⟩,
   ⟨rfl, rfl⟩, by decide, by decide⟩

end RichSoup
